import Mathlib

/-!
Verification of the accuracy-evaluation engine of the htr repository
(`cmd/eval.go`): the ignore-pattern aligner `applyIgnorePatterns`, the
character- and word-level Levenshtein engines, the single-line whitespace
normalizer, and the metrics aggregator `CalculateAccuracyMetrics`.

Modelling conventions:
* a Go string is modelled as its sequence of code points (`List Char`,
  matching Go's `[]rune`); Go's byte-oriented operations (`len(s)`, byte
  indexing inside `levenshteinDistance`) act on the UTF-8 encoding of that
  sequence, modelled by `utf8Bytes`;
* Go `float64` arithmetic is modelled by exact rational arithmetic (`ℚ`);
  every division performed by the engine is guarded exactly as in the source;
* the dynamic-programming matrices are modelled by the recurrences their fill
  loops satisfy (`levMat`, `dpWA`), and the backtrace loop by `backtrack`.
-/

namespace HTR

/-- Strings as sequences of code points (Go `[]rune`). -/
abbrev Str := List Char

/-- Go `unicode.IsSpace`: the Unicode White_Space property.  The set of
code points with this property is finite and is listed here in full. -/
def isSpace (c : Char) : Bool :=
  let n := c.toNat
  n == 9 || n == 10 || n == 11 || n == 12 || n == 13 || n == 32 ||
  n == 0x85 || n == 0xA0 || n == 0x1680 ||
  (decide (0x2000 ≤ n) && decide (n ≤ 0x200A)) ||
  n == 0x2028 || n == 0x2029 || n == 0x202F || n == 0x205F || n == 0x3000

/-- UTF-8 encoding of one code point, as the list of its byte values
(Go strings store text in UTF-8). -/
def utf8EncodeChar (c : Char) : List Nat :=
  let n := c.toNat
  if n < 0x80 then [n]
  else if n < 0x800 then [0xC0 + n / 0x40, 0x80 + n % 0x40]
  else if n < 0x10000 then
    [0xE0 + n / 0x1000, 0x80 + n / 0x40 % 0x40, 0x80 + n % 0x40]
  else
    [0xF0 + n / 0x40000, 0x80 + n / 0x1000 % 0x40, 0x80 + n / 0x40 % 0x40, 0x80 + n % 0x40]

/-- UTF-8 byte sequence of a string: Go's `[]byte(s)`; its length is Go `len(s)`. -/
def utf8Bytes (s : Str) : List Nat := (s.map utf8EncodeChar).flatten

/-- Go `strings.Count(s, pat)`: number of non-overlapping instances of `pat`
in `s`, scanning left to right and skipping past each match; for the empty
pattern it returns `1 +` the number of code points. -/
def strCount (s pat : Str) : Nat :=
  if hp : pat = [] then s.length + 1
  else if hpre : pat.isPrefixOf s then 1 + strCount (s.drop pat.length) pat
  else
    match s with
    | [] => 0
    | _ :: t => strCount t pat
termination_by s.length
decreasing_by
  · have hle : pat.length ≤ s.length := (List.isPrefixOf_iff_prefix.mp hpre).length_le
    have hpos : 0 < pat.length := List.length_pos.mpr hp
    simp only [List.length_drop]
    omega
  · simp_all

/-- Index-advancing scan loop used by the aligner's transcription skips:
Go `for idx < len(runes) && p(runes[idx]) { idx++ }`. -/
def skipWhile (p : Char → Bool) (s : Str) (i : Nat) : Nat :=
  if h : i < s.length ∧ p (s.getD i ' ') then skipWhile p s (i + 1) else i
termination_by s.length - i
decreasing_by omega

/-- Pattern search of Go `applyIgnorePatterns` at one ground-truth position:
the patterns are tried in caller order, `[]rune`-prefix comparison at
`gtIdx`, first match wins (the Go loop with `break`).  Go keeps the matched
pattern in a variable initialized to `""`, so `[]` doubles as "no match";
an empty pattern that "matches" is indistinguishable from no match. -/
def firstMatch (gt : Str) (pats : List Str) (gtIdx : Nat) : Str :=
  (pats.find? (fun p => p.isPrefixOf (gt.drop gtIdx))).getD []

/-- Standalone test of Go `applyIgnorePatterns`: the position right before the
match is a string boundary or whitespace, and so is the position right after
the matched pattern. -/
def standaloneAt (gt : Str) (gtIdx patternLen : Nat) : Bool :=
  (gtIdx == 0 || isSpace (gt.getD (gtIdx - 1) ' ')) &&
  (decide (gt.length ≤ gtIdx + patternLen) || isSpace (gt.getD (gtIdx + patternLen) ' '))

/-- Main scan loop of Go `applyIgnorePatterns`.  Walks the ground truth by
code point.  A matched non-empty pattern is classified as standalone
(whitespace or string boundary on both sides) or embedded, and the
corresponding span of the transcription - a whitespace run plus one word,
or one code point - is skipped without being copied; a normal character is
copied to the output ground truth together with the current transcription
character, if any remains. -/
def alignLoop (gt trans : Str) (pats : List Str) (gtIdx transIdx : Nat) : Str × Str :=
  if hlt : gtIdx < gt.length then
    let matched := firstMatch gt pats gtIdx
    if hmp : matched ≠ [] then
      if standaloneAt gt gtIdx matched.length then
        alignLoop gt trans pats (gtIdx + matched.length)
          (skipWhile (fun c => !(isSpace c)) trans (skipWhile (fun c => isSpace c) trans transIdx))
      else
        alignLoop gt trans pats (gtIdx + matched.length)
          (if transIdx < trans.length then transIdx + 1 else transIdx)
    else
      let rest := alignLoop gt trans pats (gtIdx + 1)
        (if transIdx < trans.length then transIdx + 1 else transIdx)
      (gt.getD gtIdx ' ' :: rest.1,
       if transIdx < trans.length then trans.getD transIdx ' ' :: rest.2 else rest.2)
  else ([], [])
termination_by gt.length - gtIdx
decreasing_by
  · exact Nat.sub_lt_sub_left hlt (Nat.lt_add_of_pos_right (List.length_pos.mpr hmp))
  · exact Nat.sub_lt_sub_left hlt (Nat.lt_add_of_pos_right (List.length_pos.mpr hmp))
  · omega

/-- Go `applyIgnorePatterns(groundTruth, transcription, ignorePatterns)`:
returns `(processedGroundTruth, processedTranscription, ignoredCount)`.
With no patterns it is the identity; otherwise `ignoredCount` sums, per
pattern, the non-overlapping occurrence count in the ground truth times the
pattern's UTF-8 byte length (Go `len(pattern)`), and the two strings are
produced by `alignLoop`. -/
def applyIgnorePatterns (groundTruth transcription : Str) (ignorePatterns : List Str) :
    Str × Str × Nat :=
  if ignorePatterns = [] then (groundTruth, transcription, 0)
  else
    let ignoredCount := ignorePatterns.foldl
      (fun acc pattern => acc + strCount groundTruth pattern * (utf8Bytes pattern).length) 0
    let processed := alignLoop groundTruth transcription ignorePatterns 0 0
    (processed.1, processed.2, ignoredCount)

/-- One pass of Go `strings.ReplaceAll(text, "  ", " ")`: replaces
non-overlapping double spaces left to right, resuming after each match. -/
def replacePass : Str → Str
  | ' ' :: ' ' :: rest => ' ' :: replacePass rest
  | c :: rest => c :: replacePass rest
  | [] => []

/-- Go `strings.Contains(text, "  ")`. -/
def hasDoubleSpace : Str → Bool
  | ' ' :: ' ' :: _ => true
  | _ :: rest => hasDoubleSpace rest
  | [] => false

theorem replacePass_length_le : ∀ s : Str, (replacePass s).length ≤ s.length := by
  intro s
  induction s using replacePass.induct with
  | case1 rest ih =>
    simp [replacePass]
    omega
  | case2 c rest hne ih =>
    rw [replacePass.eq_2 c rest hne]
    simpa using ih
  | case3 => simp [replacePass]

theorem replacePass_length_lt :
    ∀ s : Str, hasDoubleSpace s = true → (replacePass s).length < s.length := by
  intro s
  induction s using replacePass.induct with
  | case1 rest ih =>
    have := replacePass_length_le rest
    simp [replacePass]
    omega
  | case2 c rest hne ih =>
    intro h
    rw [hasDoubleSpace.eq_2 c rest hne] at h
    rw [replacePass.eq_2 c rest hne]
    simpa using ih h
  | case3 => simp [hasDoubleSpace]

/-- Go `normalizeSpaces`: repeats `ReplaceAll("  ", " ")` while the text still
contains a double space. -/
def normalizeSpaces (s : Str) : Str :=
  if h : hasDoubleSpace s then normalizeSpaces (replacePass s) else s
termination_by s.length
decreasing_by exact replacePass_length_lt s h

/-- Scan of Go `strings.Fields`: walks the string once, growing the current
word in an accumulator (kept reversed) and emitting it at each whitespace
boundary or at the end. -/
def fieldsAux : Str → Str → List Str
  | acc, [] => if acc = [] then [] else [acc.reverse]
  | acc, c :: rest =>
    if isSpace c then
      if acc = [] then fieldsAux [] rest
      else acc.reverse :: fieldsAux [] rest
    else fieldsAux (c :: acc) rest

/-- Go `strings.Fields`: splits around maximal runs of White_Space characters,
returning the non-empty tokens. -/
def fields (s : Str) : List Str := fieldsAux [] s

/-- Row `i + 1` of the shared Levenshtein DP fill, as a function of the
previous row: entry `j` of the new row.  Mirrors the inner loop of Go
`levenshteinDistance` and `wordLevelLevenshteinDistance`:
`matrix[i][j] = min(min(matrix[i-1][j]+1, matrix[i][j-1]+1), matrix[i-1][j-1]+cost)`. -/
def levRow [DecidableEq α] (dflt : α) (s t : List α) (prev : Nat → Nat) (i : Nat) :
    Nat → Nat
  | 0 => i + 1
  | j + 1 =>
    let cost : Nat := if s.getD i dflt = t.getD j dflt then 0 else 1
    min (min (prev (j + 1) + 1) (levRow dflt s t prev i j + 1)) (prev j + cost)

/-- Entry `matrix[i][j]` of the DP table filled by Go `levenshteinDistance`
(and `wordLevelLevenshteinDistance`): edit distance between the first `i`
elements of `s` and the first `j` elements of `t`. -/
def levMat [DecidableEq α] (dflt : α) (s t : List α) : Nat → Nat → Nat
  | 0 => fun j => j
  | i + 1 => levRow dflt s t (levMat dflt s t i) i

/-- Row `i + 1` of the DP fill of Go `calculateWordLevelMetrics`, where a
match forces the diagonal move:
`dp[i][j] = dp[i-1][j-1]` on match, else `1 + min(min(dp[i-1][j], dp[i][j-1]), dp[i-1][j-1])`. -/
def dpWARow [DecidableEq α] (dflt : α) (s t : List α) (prev : Nat → Nat) (i : Nat) :
    Nat → Nat
  | 0 => i + 1
  | j + 1 =>
    if s.getD i dflt = t.getD j dflt then prev j
    else 1 + min (min (prev (j + 1)) (dpWARow dflt s t prev i j)) (prev j)

/-- Entry `dp[i][j]` of the DP table filled by Go `calculateWordLevelMetrics`. -/
def dpWA [DecidableEq α] (dflt : α) (s t : List α) : Nat → Nat → Nat
  | 0 => fun j => j
  | i + 1 => dpWARow dflt s t (dpWA dflt s t i) i

/-- Go `levenshteinDistance(s1, s2)`: byte-level edit distance - Go indexes
the strings' UTF-8 bytes (`s1[i-1]`, `len(s1)`). -/
def levenshteinDistance (s1 s2 : Str) : Nat :=
  let b1 := utf8Bytes s1
  let b2 := utf8Bytes s2
  if b1.length = 0 then b2.length
  else if b2.length = 0 then b1.length
  else levMat 0 b1 b2 b1.length b2.length

/-- Go `wordLevelLevenshteinDistance(words1, words2)`: edit distance between
word sequences. -/
def wordLevelLevenshteinDistance (words1 words2 : List Str) : Nat :=
  if words1.length = 0 then words2.length
  else if words2.length = 0 then words1.length
  else levMat [] words1 words2 words1.length words2.length

/-- Go `calculateSimilarity(s1, s2)`: `1 - distance / max(len(s1), len(s2))`
(byte lengths), and `1.0` when both strings are empty. -/
def calculateSimilarity (s1 s2 : Str) : ℚ :=
  let maxLen := max (utf8Bytes s1).length (utf8Bytes s2).length
  if maxLen = 0 then 1
  else 1 - (levenshteinDistance s1 s2 : ℚ) / (maxLen : ℚ)

/-- Go `calculateWordSimilarity(words1, words2)`. -/
def calculateWordSimilarity (words1 words2 : List Str) : ℚ :=
  let maxLen := max words1.length words2.length
  if maxLen = 0 then 1
  else 1 - (wordLevelLevenshteinDistance words1 words2 : ℚ) / (maxLen : ℚ)

/-- Operation counts collected by the backtrace loop of
`calculateWordLevelMetrics`. -/
structure OpCounts where
  correct : Nat
  substitutions : Nat
  deletions : Nat
  insertions : Nat
deriving DecidableEq

/-- Backtrace loop of Go `calculateWordLevelMetrics`: walks from `dp[i][j]`
towards `dp[0][0]`, classifying each step as correct, substitution, deletion
or insertion, in exactly the source's `if`/`else if` order.  The final
branch mirrors the situation in which no condition fires; the Go loop would
then spin forever, and `backtrack_total` below proves it is never reached. -/
def backtrack (orig trans : List Str) (i j : Nat) : OpCounts :=
  if 0 < i ∨ 0 < j then
    if 0 < i ∧ 0 < j ∧ orig.getD (i - 1) [] = trans.getD (j - 1) [] then
      let r := backtrack orig trans (i - 1) (j - 1)
      { r with correct := r.correct + 1 }
    else if 0 < i ∧ 0 < j ∧ dpWA [] orig trans i j = dpWA [] orig trans (i - 1) (j - 1) + 1 then
      let r := backtrack orig trans (i - 1) (j - 1)
      { r with substitutions := r.substitutions + 1 }
    else if 0 < i ∧ dpWA [] orig trans i j = dpWA [] orig trans (i - 1) j + 1 then
      let r := backtrack orig trans (i - 1) j
      { r with deletions := r.deletions + 1 }
    else if 0 < j ∧ dpWA [] orig trans i j = dpWA [] orig trans i (j - 1) + 1 then
      let r := backtrack orig trans i (j - 1)
      { r with insertions := r.insertions + 1 }
    else ⟨0, 0, 0, 0⟩
  else ⟨0, 0, 0, 0⟩
termination_by i + j
decreasing_by all_goals omega

/-- Result record of Go `calculateWordLevelMetrics`
`(wordAccuracy, correct, substitutions, deletions, insertions)`. -/
structure WordMetrics where
  wordAccuracy : ℚ
  correct : Nat
  substitutions : Nat
  deletions : Nat
  insertions : Nat
deriving DecidableEq

/-- Go `calculateWordLevelMetrics(orig, trans)`: fills the DP table, backtracks,
and derives `wordAccuracy = 1 - WER` with `WER = totalEdits / m` (0 when `m = 0`). -/
def calculateWordLevelMetrics (orig trans : List Str) : WordMetrics :=
  let m := orig.length
  let n := trans.length
  let r := backtrack orig trans m n
  let totalEdits := r.substitutions + r.deletions + r.insertions
  let wer : ℚ := if 0 < m then (totalEdits : ℚ) / (m : ℚ) else 0
  { wordAccuracy := 1 - wer
    correct := r.correct
    substitutions := r.substitutions
    deletions := r.deletions
    insertions := r.insertions }

/-- Go `strings.ReplaceAll(text, string(tgt), " ")` for a one-character target. -/
def replaceChar (tgt : Char) (s : Str) : Str :=
  s.map (fun c => if c = tgt then ' ' else c)

/-- Transformation `CalculateAccuracyMetrics` applies to each input when
`singleLine` is set: `\n`, `\r`, `\t` become spaces, then `normalizeSpaces`. -/
def singleLineTransform (s : Str) : Str :=
  normalizeSpaces (replaceChar '\t' (replaceChar '\r' (replaceChar '\n' s)))

/-- Text-transformation stage of `CalculateAccuracyMetrics`: the single-line
flattening when requested, the identity otherwise. -/
def preprocess (s : Str) (singleLine : Bool) : Str :=
  if singleLine then singleLineTransform s else s

/-- Metric fields of the Go `EvalResult` record set by
`CalculateAccuracyMetrics` (the provenance fields - identifier, image path,
response text - are not computed by the engine and are omitted). -/
structure EvalResult where
  characterSimilarity : ℚ
  characterAccuracy : ℚ
  wordSimilarity : ℚ
  wordAccuracy : ℚ
  wordErrorRate : ℚ
  totalWordsOriginal : Nat
  totalWordsTranscribed : Nat
  correctWords : Nat
  substitutions : Nat
  deletions : Nat
  insertions : Nat
  ignoredCharsCount : Nat
deriving DecidableEq

/-- Go `CalculateAccuracyMetrics(original, transcribed, ignorePatterns, singleLine)`:
optional single-line normalization, ignore-pattern alignment, character-level
and word-level metrics, assembled into one record. -/
def CalculateAccuracyMetrics (original transcribed : Str) (ignorePatterns : List Str)
    (singleLine : Bool) : EvalResult :=
  let origTransformed := preprocess original singleLine
  let transTransformed := preprocess transcribed singleLine
  let processed := applyIgnorePatterns origTransformed transTransformed ignorePatterns
  let origProcessed := processed.1
  let transProcessed := processed.2.1
  let ignoredCount := processed.2.2
  let charSim := calculateSimilarity origProcessed transProcessed
  let origLen := (utf8Bytes origProcessed).length
  let charDistance := levenshteinDistance origProcessed transProcessed
  let charAcc : ℚ := if 0 < origLen then 1 - (charDistance : ℚ) / (origLen : ℚ) else 1
  let origWords := fields origProcessed
  let transWords := fields transProcessed
  let wordSim := calculateWordSimilarity origWords transWords
  let wm := calculateWordLevelMetrics origWords transWords
  { characterSimilarity := charSim
    characterAccuracy := charAcc
    wordSimilarity := wordSim
    wordAccuracy := wm.wordAccuracy
    wordErrorRate := 1 - wm.wordAccuracy
    totalWordsOriginal := origWords.length
    totalWordsTranscribed := transWords.length
    correctWords := wm.correct
    substitutions := wm.substitutions
    deletions := wm.deletions
    insertions := wm.insertions
    ignoredCharsCount := ignoredCount }

section DPLemmas

variable {α : Type} [DecidableEq α] (dflt : α) (s t : List α)

theorem levMat_zero_left (j : Nat) : levMat dflt s t 0 j = j := rfl

theorem levMat_zero_right (i : Nat) : levMat dflt s t i 0 = i := by
  cases i <;> rfl

theorem levMat_succ_succ (i j : Nat) :
    levMat dflt s t (i + 1) (j + 1) =
      min (min (levMat dflt s t i (j + 1) + 1) (levMat dflt s t (i + 1) j + 1))
        (levMat dflt s t i j + if s.getD i dflt = t.getD j dflt then 0 else 1) := rfl

theorem dpWA_zero_left (j : Nat) : dpWA dflt s t 0 j = j := rfl

theorem dpWA_zero_right (i : Nat) : dpWA dflt s t i 0 = i := by
  cases i <;> rfl

theorem dpWA_succ_succ (i j : Nat) :
    dpWA dflt s t (i + 1) (j + 1) =
      if s.getD i dflt = t.getD j dflt then dpWA dflt s t i j
      else 1 + min (min (dpWA dflt s t i (j + 1)) (dpWA dflt s t (i + 1) j))
        (dpWA dflt s t i j) := rfl

theorem levMat_le_max : ∀ i j : Nat, levMat dflt s t i j ≤ max i j := by
  suffices H : ∀ n i j : Nat, i + j ≤ n → levMat dflt s t i j ≤ max i j by
    exact fun i j => H (i + j) i j le_rfl
  intro n
  induction n with
  | zero =>
    intro i j h
    have hi : i = 0 := by omega
    have hj : j = 0 := by omega
    subst hi; subst hj
    simp [levMat_zero_left]
  | succ n ih =>
    intro i j h
    match i, j with
    | 0, j => simp [levMat_zero_left]
    | i + 1, 0 => simp [levMat_zero_right]
    | i + 1, j + 1 =>
      have h3 : levMat dflt s t i j ≤ max i j := ih i j (by omega)
      have hcost : (if s.getD i dflt = t.getD j dflt then 0 else 1) ≤ 1 := by
        split <;> omega
      have e1 := levMat_succ_succ dflt s t i j
      omega

theorem levMat_lower : ∀ i j : Nat,
    i ≤ j + levMat dflt s t i j ∧ j ≤ i + levMat dflt s t i j := by
  suffices H : ∀ n i j : Nat, i + j ≤ n →
      i ≤ j + levMat dflt s t i j ∧ j ≤ i + levMat dflt s t i j by
    exact fun i j => H (i + j) i j le_rfl
  intro n
  induction n with
  | zero =>
    intro i j h
    have hi : i = 0 := by omega
    have hj : j = 0 := by omega
    subst hi; subst hj
    simp [levMat_zero_left]
  | succ n ih =>
    intro i j h
    match i, j with
    | 0, j => simp [levMat_zero_left]
    | i + 1, 0 => simp [levMat_zero_right]
    | i + 1, j + 1 =>
      have h1 := ih i (j + 1) (by omega)
      have h2 := ih (i + 1) j (by omega)
      have h3 := ih i j (by omega)
      have e1 := levMat_succ_succ dflt s t i j
      omega

theorem levMat_adj_right : ∀ i j : Nat,
    levMat dflt s t i j ≤ levMat dflt s t i (j + 1) + 1 := by
  intro i
  induction i with
  | zero =>
    intro j
    simp only [levMat_zero_left]
    omega
  | succ i ih =>
    intro j
    match j with
    | 0 =>
      have h1 := (levMat_lower dflt s t (i + 1) (0 + 1)).1
      have h0 := levMat_zero_right dflt s t (i + 1)
      omega
    | j + 1 =>
      have hA := ih (j + 1)
      have e1 := levMat_succ_succ dflt s t i j
      have e2 := levMat_succ_succ dflt s t i (j + 1)
      omega

theorem levMat_adj_down : ∀ j i : Nat,
    levMat dflt s t i j ≤ levMat dflt s t (i + 1) j + 1 := by
  intro j
  induction j with
  | zero =>
    intro i
    simp only [levMat_zero_right]
    omega
  | succ j ih =>
    intro i
    match i with
    | 0 =>
      have h1 := (levMat_lower dflt s t (0 + 1) (j + 1)).2
      have h0 := levMat_zero_left dflt s t (j + 1)
      omega
    | i + 1 =>
      have hB := ih (i + 1)
      have e1 := levMat_succ_succ dflt s t i j
      have e2 := levMat_succ_succ dflt s t (i + 1) j
      omega

theorem dpWA_eq_levMat : ∀ i j : Nat, dpWA dflt s t i j = levMat dflt s t i j := by
  suffices H : ∀ n i j : Nat, i + j ≤ n → dpWA dflt s t i j = levMat dflt s t i j by
    exact fun i j => H (i + j) i j le_rfl
  intro n
  induction n with
  | zero =>
    intro i j h
    have hi : i = 0 := by omega
    have hj : j = 0 := by omega
    subst hi; subst hj
    simp [levMat_zero_left, dpWA_zero_left]
  | succ n ih =>
    intro i j h
    match i, j with
    | 0, j => simp [levMat_zero_left, dpWA_zero_left]
    | i + 1, 0 => simp [levMat_zero_right, dpWA_zero_right]
    | i + 1, j + 1 =>
      have h1 := ih i (j + 1) (by omega)
      have h2 := ih (i + 1) j (by omega)
      have h3 := ih i j (by omega)
      have e1 := dpWA_succ_succ dflt s t i j
      have e2 := levMat_succ_succ dflt s t i j
      by_cases heq : s.getD i dflt = t.getD j dflt
      · have hA := levMat_adj_right dflt s t i j
        have hB := levMat_adj_down dflt s t j i
        simp only [heq, if_pos] at e1 e2
        omega
      · simp only [heq, if_false, if_neg, not_false_iff] at e1 e2
        omega

end DPLemmas

section BacktrackLemmas

variable (orig trans : List Str)

theorem backtrack_sums : ∀ i j : Nat,
    (backtrack orig trans i j).correct + (backtrack orig trans i j).substitutions +
        (backtrack orig trans i j).deletions = i ∧
      (backtrack orig trans i j).substitutions + (backtrack orig trans i j).deletions +
        (backtrack orig trans i j).insertions = dpWA [] orig trans i j := by
  suffices H : ∀ n i j : Nat, i + j ≤ n →
      (backtrack orig trans i j).correct + (backtrack orig trans i j).substitutions +
          (backtrack orig trans i j).deletions = i ∧
        (backtrack orig trans i j).substitutions + (backtrack orig trans i j).deletions +
          (backtrack orig trans i j).insertions = dpWA [] orig trans i j by
    exact fun i j => H (i + j) i j le_rfl
  intro n
  induction n with
  | zero =>
    intro i j h
    have hi : i = 0 := by omega
    have hj : j = 0 := by omega
    subst hi; subst hj
    rw [backtrack]
    simp [dpWA_zero_left]
  | succ n ih =>
    intro i j h
    match i, j with
    | 0, 0 =>
      rw [backtrack]
      simp [dpWA_zero_left]
    | 0, j + 1 =>
      have hguard : (0 : Nat) < 0 ∨ 0 < j + 1 := by omega
      have hc1 : ¬((0 : Nat) < 0 ∧ 0 < j + 1 ∧
          orig.getD (0 - 1) [] = trans.getD (j + 1 - 1) []) := by omega
      have hc2 : ¬((0 : Nat) < 0 ∧ 0 < j + 1 ∧
          dpWA [] orig trans 0 (j + 1) = dpWA [] orig trans (0 - 1) (j + 1 - 1) + 1) := by omega
      have hc3 : ¬((0 : Nat) < 0 ∧
          dpWA [] orig trans 0 (j + 1) = dpWA [] orig trans (0 - 1) (j + 1) + 1) := by omega
      have hc4 : (0 : Nat) < j + 1 ∧
          dpWA [] orig trans 0 (j + 1) = dpWA [] orig trans 0 (j + 1 - 1) + 1 := by
        refine ⟨by omega, ?_⟩
        simp [dpWA_zero_left]
      rw [backtrack, if_pos hguard, if_neg hc1, if_neg hc2, if_neg hc3, if_pos hc4]
      have hIH := ih 0 j (by omega)
      simp only [Nat.add_sub_cancel]
      simp only [dpWA_zero_left] at hIH ⊢
      omega
    | i + 1, 0 =>
      have hguard : (0 : Nat) < i + 1 ∨ (0 : Nat) < 0 := by omega
      have hc1 : ¬((0 : Nat) < i + 1 ∧ (0 : Nat) < 0 ∧
          orig.getD (i + 1 - 1) [] = trans.getD (0 - 1) []) := by omega
      have hc2 : ¬((0 : Nat) < i + 1 ∧ (0 : Nat) < 0 ∧
          dpWA [] orig trans (i + 1) 0 = dpWA [] orig trans (i + 1 - 1) (0 - 1) + 1) := by
        omega
      have hc3 : (0 : Nat) < i + 1 ∧
          dpWA [] orig trans (i + 1) 0 = dpWA [] orig trans (i + 1 - 1) 0 + 1 := by
        refine ⟨by omega, ?_⟩
        simp [dpWA_zero_right]
      rw [backtrack, if_pos hguard, if_neg hc1, if_neg hc2, if_pos hc3]
      have hIH := ih i 0 (by omega)
      simp only [Nat.add_sub_cancel]
      simp only [dpWA_zero_right] at hIH ⊢
      omega
    | i + 1, j + 1 =>
      have hguard : (0 : Nat) < i + 1 ∨ (0 : Nat) < j + 1 := by omega
      have hIHd := ih i j (by omega)
      have hIHu := ih i (j + 1) (by omega)
      have hIHl := ih (i + 1) j (by omega)
      have hdp := dpWA_succ_succ ([] : Str) orig trans i j
      rw [backtrack, if_pos hguard]
      by_cases hc1 : (0 : Nat) < i + 1 ∧ 0 < j + 1 ∧
          orig.getD (i + 1 - 1) [] = trans.getD (j + 1 - 1) []
      · rw [if_pos hc1]
        have heq : orig.getD i [] = trans.getD j [] := by
          simpa only [Nat.add_sub_cancel] using hc1.2.2
        rw [if_pos heq] at hdp
        simp only [Nat.add_sub_cancel]
        omega
      · rw [if_neg hc1]
        have hne : ¬(orig.getD i [] = trans.getD j []) := by
          intro heq
          exact hc1 ⟨by omega, by omega, by simpa only [Nat.add_sub_cancel] using heq⟩
        rw [if_neg hne] at hdp
        by_cases hc2 : (0 : Nat) < i + 1 ∧ 0 < j + 1 ∧
            dpWA [] orig trans (i + 1) (j + 1) = dpWA [] orig trans (i + 1 - 1) (j + 1 - 1) + 1
        · rw [if_pos hc2]
          have h2 := hc2.2.2
          simp only [Nat.add_sub_cancel] at h2 ⊢
          omega
        · rw [if_neg hc2]
          by_cases hc3 : (0 : Nat) < i + 1 ∧
              dpWA [] orig trans (i + 1) (j + 1) = dpWA [] orig trans (i + 1 - 1) (j + 1) + 1
          · rw [if_pos hc3]
            have h3 := hc3.2
            simp only [Nat.add_sub_cancel] at h3 ⊢
            omega
          · rw [if_neg hc3]
            by_cases hc4 : (0 : Nat) < j + 1 ∧
                dpWA [] orig trans (i + 1) (j + 1) = dpWA [] orig trans (i + 1) (j + 1 - 1) + 1
            · rw [if_pos hc4]
              have h4 := hc4.2
              simp only [Nat.add_sub_cancel] at h4 ⊢
              omega
            · exfalso
              have h2' : ¬(dpWA [] orig trans (i + 1) (j + 1) = dpWA [] orig trans i j + 1) := by
                intro hx
                exact hc2 ⟨by omega, by omega, by simpa only [Nat.add_sub_cancel] using hx⟩
              have h3' : ¬(dpWA [] orig trans (i + 1) (j + 1) =
                  dpWA [] orig trans i (j + 1) + 1) := by
                intro hx
                exact hc3 ⟨by omega, by simpa only [Nat.add_sub_cancel] using hx⟩
              have h4' : ¬(dpWA [] orig trans (i + 1) (j + 1) =
                  dpWA [] orig trans (i + 1) j + 1) := by
                intro hx
                exact hc4 ⟨by omega, by simpa only [Nat.add_sub_cancel] using hx⟩
              omega

end BacktrackLemmas

/-- Go `wordLevelLevenshteinDistance` agrees with the full DP table value. -/
theorem wordLevelLevenshteinDistance_eq_levMat (w1 w2 : List Str) :
    wordLevelLevenshteinDistance w1 w2 = levMat [] w1 w2 w1.length w2.length := by
  unfold wordLevelLevenshteinDistance
  split_ifs with h1 h2
  · rw [h1, levMat_zero_left]
  · rw [h2, levMat_zero_right]
  · rfl

/-- Specification-side normalizer of section 4.1: collapse every run of two
or more spaces into a single space, touching nothing else (in particular a
leading or trailing run becomes a single leading or trailing space). -/
def collapseRuns : Str → Str
  | ' ' :: ' ' :: rest => collapseRuns (' ' :: rest)
  | c :: rest => c :: collapseRuns rest
  | [] => []
termination_by s => s.length
decreasing_by all_goals simp

theorem collapseRuns_cons_of_ne (c : Char) (hc : c ≠ ' ') (x : Str) :
    collapseRuns (c :: x) = c :: collapseRuns x := by
  have hne : ∀ rest_1 : List Char, c = ' ' → x = ' ' :: rest_1 → False := by
    intro r h1 h2
    exact hc h1
  rw [collapseRuns.eq_2 c x hne]

theorem collapseRuns_head? : ∀ (n : Nat) (c : Char) (t : Str), t.length ≤ n →
    (collapseRuns (c :: t)).head? = some c := by
  intro n
  induction n with
  | zero =>
    intro c t ht
    have : t = [] := by
      cases t with
      | nil => rfl
      | cons d u => simp at ht
    subst this
    have hne : ∀ rest_1 : List Char, c = ' ' → ([] : Str) = ' ' :: rest_1 → False := by
      intro r h1 h2
      simp at h2
    rw [collapseRuns.eq_2 c [] hne]
    rfl
  | succ n ih =>
    intro c t ht
    cases t with
    | nil =>
      have hne : ∀ rest_1 : List Char, c = ' ' → ([] : Str) = ' ' :: rest_1 → False := by
        intro r h1 h2
        simp at h2
      rw [collapseRuns.eq_2 c [] hne]
      rfl
    | cons d u =>
      by_cases hcd : c = ' ' ∧ d = ' '
      · obtain ⟨rfl, rfl⟩ := hcd
        rw [collapseRuns.eq_1]
        exact ih ' ' u (by simpa using ht)
      · have hne : ∀ rest_1 : List Char, c = ' ' → d :: u = ' ' :: rest_1 → False := by
          intro r h1 h2
          exact hcd ⟨h1, by injection h2⟩
        rw [collapseRuns.eq_2 c (d :: u) hne]
        rfl

theorem collapseRuns_space_cons (x : Str) :
    collapseRuns (' ' :: x) =
      if (collapseRuns x).head? = some ' ' then collapseRuns x
      else ' ' :: collapseRuns x := by
  match x with
  | [] =>
    have hne : ∀ rest_1 : List Char, ' ' = ' ' → ([] : Str) = ' ' :: rest_1 → False := by
      intro r h1 h2
      simp at h2
    rw [collapseRuns.eq_2 ' ' [] hne, collapseRuns.eq_3]
    simp
  | ' ' :: t =>
    rw [collapseRuns.eq_1]
    rw [if_pos (collapseRuns_head? t.length ' ' t le_rfl)]
  | c :: t =>
    by_cases hc : c = ' '
    · subst hc
      rw [collapseRuns.eq_1]
      rw [if_pos (collapseRuns_head? t.length ' ' t le_rfl)]
    · have hne : ∀ rest_1 : List Char, ' ' = ' ' → c :: t = ' ' :: rest_1 → False := by
        intro r h1 h2
        exact hc (by injection h2)
      rw [collapseRuns.eq_2 ' ' (c :: t) hne]
      rw [if_neg (by rw [collapseRuns_head? t.length c t le_rfl]; simp [hc])]

theorem collapseRuns_replacePass : ∀ s : Str, collapseRuns (replacePass s) = collapseRuns s := by
  intro s
  induction s using replacePass.induct with
  | case1 rest ih =>
    show collapseRuns (' ' :: replacePass rest) = collapseRuns (' ' :: ' ' :: rest)
    rw [collapseRuns_space_cons, ih, collapseRuns.eq_1, collapseRuns_space_cons]
  | case2 c rest hne ih =>
    rw [replacePass.eq_2 c rest hne]
    by_cases hc : c = ' '
    · subst hc
      rw [collapseRuns_space_cons, collapseRuns_space_cons, ih]
    · rw [collapseRuns_cons_of_ne c hc, collapseRuns_cons_of_ne c hc, ih]
  | case3 => rfl

theorem collapseRuns_of_no_double : ∀ s : Str, hasDoubleSpace s = false → collapseRuns s = s := by
  intro s
  induction s using collapseRuns.induct with
  | case1 rest ih =>
    intro h
    simp [hasDoubleSpace] at h
  | case2 c rest hne ih =>
    intro h
    rw [hasDoubleSpace.eq_2 c rest hne] at h
    rw [collapseRuns.eq_2 c rest hne, ih h]
  | case3 => intro _; rw [collapseRuns.eq_3]

section AlignerLemmas

variable (gt trans : Str) (pats : List Str)

theorem alignLoop_stop (gtIdx transIdx : Nat) (h : ¬ gtIdx < gt.length) :
    alignLoop gt trans pats gtIdx transIdx = ([], []) := by
  rw [alignLoop.eq_1, dif_neg h]

theorem alignLoop_standalone (gtIdx transIdx : Nat)
    (h1 : gtIdx < gt.length) (hm : firstMatch gt pats gtIdx ≠ [])
    (hsa : standaloneAt gt gtIdx (firstMatch gt pats gtIdx).length = true) :
    alignLoop gt trans pats gtIdx transIdx =
      alignLoop gt trans pats (gtIdx + (firstMatch gt pats gtIdx).length)
        (skipWhile (fun c => !(isSpace c)) trans (skipWhile (fun c => isSpace c) trans transIdx)) := by
  rw [alignLoop.eq_1, dif_pos h1]
  dsimp only
  rw [dif_pos hm, if_pos hsa]

theorem alignLoop_embedded (gtIdx transIdx : Nat)
    (h1 : gtIdx < gt.length) (hm : firstMatch gt pats gtIdx ≠ [])
    (hsa : ¬ standaloneAt gt gtIdx (firstMatch gt pats gtIdx).length = true) :
    alignLoop gt trans pats gtIdx transIdx =
      alignLoop gt trans pats (gtIdx + (firstMatch gt pats gtIdx).length)
        (if transIdx < trans.length then transIdx + 1 else transIdx) := by
  rw [alignLoop.eq_1, dif_pos h1]
  dsimp only
  rw [dif_pos hm, if_neg hsa]

theorem alignLoop_normal (gtIdx transIdx : Nat)
    (h1 : gtIdx < gt.length) (hm : ¬ firstMatch gt pats gtIdx ≠ []) :
    alignLoop gt trans pats gtIdx transIdx =
      ((gt.getD gtIdx ' ' ::
          (alignLoop gt trans pats (gtIdx + 1)
            (if transIdx < trans.length then transIdx + 1 else transIdx)).1),
        if transIdx < trans.length then
          trans.getD transIdx ' ' ::
            (alignLoop gt trans pats (gtIdx + 1)
              (if transIdx < trans.length then transIdx + 1 else transIdx)).2
        else
          (alignLoop gt trans pats (gtIdx + 1)
            (if transIdx < trans.length then transIdx + 1 else transIdx)).2) := by
  rw [alignLoop.eq_1, dif_pos h1]
  dsimp only
  rw [dif_neg hm]

/-- Every code point copied to the output transcription is paired with one
copied to the output ground truth, so the processed transcription is never
longer (in code points) than the processed ground truth. -/
theorem alignLoop_trans_len_le : ∀ gtIdx transIdx : Nat,
    (alignLoop gt trans pats gtIdx transIdx).2.length ≤
      (alignLoop gt trans pats gtIdx transIdx).1.length := by
  intro gtIdx transIdx
  induction gtIdx, transIdx using alignLoop.induct gt trans pats with
  | case1 gtIdx transIdx hlt matched hmp hsa ih =>
    rw [alignLoop_standalone gt trans pats gtIdx transIdx hlt hmp hsa]
    exact ih
  | case2 gtIdx transIdx hlt matched hmp hsa ih =>
    rw [alignLoop_embedded gt trans pats gtIdx transIdx hlt hmp hsa]
    exact ih
  | case3 gtIdx transIdx hlt matched hmp ih =>
    rw [alignLoop_normal gt trans pats gtIdx transIdx hlt hmp]
    simp only [dite_eq_ite] at ih
    by_cases ht : transIdx < trans.length
    · simp only [if_pos ht] at ih ⊢
      simp only [List.length_cons]
      omega
    · simp only [if_neg ht] at ih ⊢
      simp only [List.length_cons]
      omega
  | case4 gtIdx transIdx h =>
    rw [alignLoop_stop gt trans pats gtIdx transIdx h]

/-- When no pattern ever matches inside the ground truth, the scan loop
copies the ground truth verbatim and copies the transcription until either
string runs out: the transcription output is the input truncated to the
ground truth's remaining length. -/
theorem alignLoop_no_match (h : ∀ k : Nat, k < gt.length → firstMatch gt pats k = []) :
    ∀ gtIdx transIdx : Nat,
      alignLoop gt trans pats gtIdx transIdx =
        (gt.drop gtIdx, (trans.drop transIdx).take (gt.length - gtIdx)) := by
  suffices H : ∀ n gtIdx transIdx : Nat, gt.length - gtIdx ≤ n →
      alignLoop gt trans pats gtIdx transIdx =
        (gt.drop gtIdx, (trans.drop transIdx).take (gt.length - gtIdx)) by
    exact fun gtIdx transIdx => H (gt.length - gtIdx) gtIdx transIdx le_rfl
  intro n
  induction n with
  | zero =>
    intro gtIdx transIdx hn
    have hge : ¬ gtIdx < gt.length := by omega
    rw [alignLoop_stop gt trans pats gtIdx transIdx hge]
    have h1 : gt.drop gtIdx = [] := List.drop_eq_nil_of_le (by omega)
    have h2 : gt.length - gtIdx = 0 := by omega
    rw [h1, h2, List.take_zero]
  | succ n ih =>
    intro gtIdx transIdx hn
    by_cases hlt : gtIdx < gt.length
    · have hm : ¬ firstMatch gt pats gtIdx ≠ [] := by
        rw [h gtIdx hlt]
        simp
      rw [alignLoop_normal gt trans pats gtIdx transIdx hlt hm]
      have hk : gt.length - gtIdx = (gt.length - (gtIdx + 1)) + 1 := by omega
      have hgtd : gt.getD gtIdx ' ' :: gt.drop (gtIdx + 1) = gt.drop gtIdx := by
        rw [List.getD_eq_getElem gt ' ' hlt]
        exact (List.drop_eq_getElem_cons hlt).symm
      by_cases ht : transIdx < trans.length
      · rw [if_pos ht, if_pos ht, ih (gtIdx + 1) (transIdx + 1) (by omega)]
        rw [hgtd, hk]
        have htd : (trans.drop transIdx).take ((gt.length - (gtIdx + 1)) + 1) =
            trans.getD transIdx ' ' :: (trans.drop (transIdx + 1)).take (gt.length - (gtIdx + 1)) := by
          rw [List.getD_eq_getElem trans ' ' ht]
          rw [List.drop_eq_getElem_cons ht]
          rfl
        rw [htd]
      · rw [if_neg ht, if_neg ht, ih (gtIdx + 1) transIdx (by omega)]
        rw [hgtd]
        have hnil : trans.drop transIdx = [] := List.drop_eq_nil_of_le (by omega)
        rw [hnil]
        simp
    · have hge := hlt
      rw [alignLoop_stop gt trans pats gtIdx transIdx hge]
      have h1 : gt.drop gtIdx = [] := List.drop_eq_nil_of_le (by omega)
      have h2 : gt.length - gtIdx = 0 := by omega
      rw [h1, h2, List.take_zero]

end AlignerLemmas

theorem foldl_add_map (f : Str → Nat) :
    ∀ (l : List Str) (a : Nat), l.foldl (fun acc p => acc + f p) a = a + (l.map f).sum := by
  intro l
  induction l with
  | nil => intro a; simp
  | cons p l ih =>
    intro a
    simp only [List.foldl_cons, List.map_cons, List.sum_cons, ih]
    omega

/-- The iterated replace loop of Go `normalizeSpaces` computes exactly the
run-collapsing normalization described by the specification. -/
theorem normalizeSpaces_eq_collapseRuns : ∀ s : Str, normalizeSpaces s = collapseRuns s := by
  suffices H : ∀ n : Nat, ∀ s : Str, s.length ≤ n → normalizeSpaces s = collapseRuns s by
    exact fun s => H s.length s le_rfl
  intro n
  induction n with
  | zero =>
    intro s h
    have hs : s = [] := by
      cases s with
      | nil => rfl
      | cons c t => simp at h
    subst hs
    rw [normalizeSpaces]
    simp only [hasDoubleSpace, Bool.false_eq_true, dite_false]
    rw [collapseRuns.eq_3]
  | succ n ih =>
    intro s h
    rw [normalizeSpaces]
    by_cases hd : hasDoubleSpace s
    · rw [dif_pos hd]
      have hlt := replacePass_length_lt s hd
      rw [ih (replacePass s) (by omega)]
      exact collapseRuns_replacePass s
    · rw [dif_neg hd]
      exact (collapseRuns_of_no_double s (by simpa using hd)).symm

/-!
Operational (fuel-instrumented) variant of the engine, for the totality
claim: every loop of the Go source is re-modelled with an explicit fuel
counter, one unit per iteration, and every index access with `List.get?`;
`none` models a Go program that loops forever or indexes out of bounds.
`CalculateAccuracyMetricsChecked_eq` proves the checked pipeline returns
`some` of the reference value on every input, with fuel bounds read off the
input sizes.
-/

/-- Fueled `skipWhile`: Go `for idx < len && p(runes[idx]) { idx++ }` with one
fuel unit per iteration and a checked index access. -/
def skipWhileF (p : Char → Bool) (s : Str) : Nat → Nat → Option Nat
  | 0, _ => none
  | fuel + 1, i =>
    if i < s.length then
      match s.get? i with
      | some c => if p c then skipWhileF p s fuel (i + 1) else some i
      | none => none
    else some i

/-- Fueled `strCount` (Go `strings.Count`). -/
def strCountF (pat : Str) : Nat → Str → Option Nat
  | 0, _ => none
  | fuel + 1, s =>
    if pat = [] then some (s.length + 1)
    else if pat.isPrefixOf s then (strCountF pat fuel (s.drop pat.length)).map (1 + ·)
    else if s = [] then some 0
    else strCountF pat fuel s.tail

/-- Fueled `normalizeSpaces` (the Go `for strings.Contains` loop). -/
def normalizeSpacesF : Nat → Str → Option Str
  | 0, _ => none
  | fuel + 1, s =>
    if hasDoubleSpace s then normalizeSpacesF fuel (replacePass s) else some s

/-- Fueled backtrace loop of `calculateWordLevelMetrics`.  The final inner
branch is the state in which none of the four `if`/`else if` conditions
holds while the loop guard does: the Go loop would spin forever there, which
the model reports as `none` (as it does on fuel exhaustion). -/
def backtrackF (orig trans : List Str) : Nat → Nat → Nat → Option OpCounts
  | 0, i, j => if 0 < i ∨ 0 < j then none else some ⟨0, 0, 0, 0⟩
  | fuel + 1, i, j =>
    if 0 < i ∨ 0 < j then
      if 0 < i ∧ 0 < j ∧ orig.getD (i - 1) [] = trans.getD (j - 1) [] then
        (backtrackF orig trans fuel (i - 1) (j - 1)).map
          (fun r => { r with correct := r.correct + 1 })
      else if 0 < i ∧ 0 < j ∧
          dpWA [] orig trans i j = dpWA [] orig trans (i - 1) (j - 1) + 1 then
        (backtrackF orig trans fuel (i - 1) (j - 1)).map
          (fun r => { r with substitutions := r.substitutions + 1 })
      else if 0 < i ∧ dpWA [] orig trans i j = dpWA [] orig trans (i - 1) j + 1 then
        (backtrackF orig trans fuel (i - 1) j).map
          (fun r => { r with deletions := r.deletions + 1 })
      else if 0 < j ∧ dpWA [] orig trans i j = dpWA [] orig trans i (j - 1) + 1 then
        (backtrackF orig trans fuel i (j - 1)).map
          (fun r => { r with insertions := r.insertions + 1 })
      else none
    else some ⟨0, 0, 0, 0⟩

/-- Fueled main scan loop of `applyIgnorePatterns`, with checked accesses. -/
def alignLoopF (gt trans : Str) (pats : List Str) : Nat → Nat → Nat → Option (Str × Str)
  | 0, gtIdx, _ => if gtIdx < gt.length then none else some ([], [])
  | fuel + 1, gtIdx, transIdx =>
    if gtIdx < gt.length then
      let matched := firstMatch gt pats gtIdx
      if matched ≠ [] then
        if standaloneAt gt gtIdx matched.length then
          match skipWhileF (fun c => isSpace c) trans (trans.length + 1) transIdx with
          | some i1 =>
            match skipWhileF (fun c => !(isSpace c)) trans (trans.length + 1) i1 with
            | some i2 => alignLoopF gt trans pats fuel (gtIdx + matched.length) i2
            | none => none
          | none => none
        else
          alignLoopF gt trans pats fuel (gtIdx + matched.length)
            (if transIdx < trans.length then transIdx + 1 else transIdx)
      else
        match gt.get? gtIdx with
        | some cg =>
          match alignLoopF gt trans pats fuel (gtIdx + 1)
              (if transIdx < trans.length then transIdx + 1 else transIdx) with
          | some rest =>
            if transIdx < trans.length then
              match trans.get? transIdx with
              | some ct => some (cg :: rest.1, ct :: rest.2)
              | none => none
            else some (cg :: rest.1, rest.2)
          | none => none
        | none => none
    else some ([], [])

/-- Checked ignored-character count: Go's `strings.Count` summation loop. -/
def ignoredCountF (gt : Str) : List Str → Option Nat
  | [] => some 0
  | p :: ps =>
    match strCountF p (gt.length + 1) gt, ignoredCountF gt ps with
    | some c, some rest => some (c * (utf8Bytes p).length + rest)
    | _, _ => none

/-- Checked `applyIgnorePatterns`. -/
def applyIgnorePatternsChecked (gt trans : Str) (pats : List Str) : Option (Str × Str × Nat) :=
  if pats = [] then some (gt, trans, 0)
  else
    match ignoredCountF gt pats with
    | some count =>
      match alignLoopF gt trans pats (gt.length + 1) 0 0 with
      | some processed => some (processed.1, processed.2, count)
      | none => none
    | none => none

/-- Checked `calculateWordLevelMetrics` (the DP fill itself is a bounded
`for` loop, modelled by the total recurrence `dpWA`; the backtrace loop gets
fuel `m + n`, the largest number of iterations possible). -/
def calculateWordLevelMetricsChecked (orig trans : List Str) : Option WordMetrics :=
  match backtrackF orig trans (orig.length + trans.length) orig.length trans.length with
  | some r =>
    some { wordAccuracy := 1 -
             (if 0 < orig.length then
               ((r.substitutions + r.deletions + r.insertions : Nat) : ℚ) / (orig.length : ℚ)
             else 0)
           correct := r.correct
           substitutions := r.substitutions
           deletions := r.deletions
           insertions := r.insertions }
  | none => none

/-- Checked text-transformation stage. -/
def preprocessChecked (s : Str) (singleLine : Bool) : Option Str :=
  if singleLine then
    normalizeSpacesF ((replaceChar '\t' (replaceChar '\r' (replaceChar '\n' s))).length + 1)
      (replaceChar '\t' (replaceChar '\r' (replaceChar '\n' s)))
  else some s

/-- Checked `CalculateAccuracyMetrics`: the full pipeline with fueled loops
and checked accesses (the two character-distance computations are bounded
nested `for` loops, modelled by the total recurrence `levMat`). -/
def CalculateAccuracyMetricsChecked (original transcribed : Str) (ignorePatterns : List Str)
    (singleLine : Bool) : Option EvalResult :=
  match preprocessChecked original singleLine, preprocessChecked transcribed singleLine with
  | some origTransformed, some transTransformed =>
    match applyIgnorePatternsChecked origTransformed transTransformed ignorePatterns with
    | some processed =>
      match calculateWordLevelMetricsChecked (fields processed.1) (fields processed.2.1) with
      | some wm =>
        some { characterSimilarity := calculateSimilarity processed.1 processed.2.1
               characterAccuracy :=
                 if 0 < (utf8Bytes processed.1).length then
                   1 - (levenshteinDistance processed.1 processed.2.1 : ℚ) /
                     ((utf8Bytes processed.1).length : ℚ)
                 else 1
               wordSimilarity := calculateWordSimilarity (fields processed.1) (fields processed.2.1)
               wordAccuracy := wm.wordAccuracy
               wordErrorRate := 1 - wm.wordAccuracy
               totalWordsOriginal := (fields processed.1).length
               totalWordsTranscribed := (fields processed.2.1).length
               correctWords := wm.correct
               substitutions := wm.substitutions
               deletions := wm.deletions
               insertions := wm.insertions
               ignoredCharsCount := processed.2.2 }
      | none => none
    | none => none
  | _, _ => none

theorem get?_of_lt (l : Str) (i : Nat) (h : i < l.length) (d : Char) :
    l.get? i = some (l.getD i d) := by
  rw [List.getD_eq_getElem l d h, List.get?_eq_getElem?, List.getElem?_eq_getElem h]

theorem skipWhileF_eq (p : Char → Bool) (s : Str) :
    ∀ fuel i : Nat, s.length - i < fuel → skipWhileF p s fuel i = some (skipWhile p s i) := by
  intro fuel
  induction fuel with
  | zero => intro i h; omega
  | succ fuel ih =>
    intro i h
    rw [skipWhileF]
    by_cases hi : i < s.length
    · rw [if_pos hi, get?_of_lt s i hi ' ']
      show (if p (s.getD i ' ') then skipWhileF p s fuel (i + 1) else some i) =
        some (skipWhile p s i)
      by_cases hp : p (s.getD i ' ') = true
      · rw [if_pos hp, skipWhile, dif_pos ⟨hi, hp⟩]
        exact ih (i + 1) (by omega)
      · rw [if_neg hp, skipWhile, dif_neg (fun hc => hp hc.2)]
    · rw [if_neg hi, skipWhile, dif_neg (fun hc => hi hc.1)]

theorem strCountF_eq (pat : Str) :
    ∀ fuel s, s.length < fuel → strCountF pat fuel s = some (strCount s pat) := by
  intro fuel
  induction fuel with
  | zero => intro s h; omega
  | succ fuel ih =>
    intro s h
    rw [strCountF]
    by_cases hp : pat = []
    · rw [if_pos hp, strCount, dif_pos hp]
    · rw [if_neg hp]
      by_cases hpre : pat.isPrefixOf s
      · have hlen : 0 < pat.length := List.length_pos.mpr hp
        have hle : pat.length ≤ s.length := (List.isPrefixOf_iff_prefix.mp hpre).length_le
        rw [if_pos hpre, ih (s.drop pat.length) (by simp only [List.length_drop]; omega)]
        conv_rhs => rw [strCount]
        rw [dif_neg hp, dif_pos hpre]
        rfl
      · rw [if_neg hpre]
        match s with
        | [] =>
          rw [if_pos rfl, strCount, dif_neg hp, dif_neg hpre]
        | c :: t =>
          rw [if_neg (by simp), strCount, dif_neg hp, dif_neg hpre]
          exact ih t (by simp at h ⊢; omega)

theorem normalizeSpacesF_eq :
    ∀ fuel s, s.length < fuel → normalizeSpacesF fuel s = some (normalizeSpaces s) := by
  intro fuel
  induction fuel with
  | zero => intro s h; omega
  | succ fuel ih =>
    intro s h
    rw [normalizeSpacesF, normalizeSpaces]
    by_cases hd : hasDoubleSpace s
    · rw [if_pos hd, dif_pos hd]
      have := replacePass_length_lt s hd
      exact ih (replacePass s) (by omega)
    · rw [if_neg hd, dif_neg hd]

/-- Whenever the loop guard of the backtrace holds, one of its four branch
conditions holds as well: the Go loop always makes progress and never spins. -/
theorem backtrack_branch_total (orig trans : List Str) (i j : Nat) (hg : 0 < i ∨ 0 < j) :
    (0 < i ∧ 0 < j ∧ orig.getD (i - 1) [] = trans.getD (j - 1) []) ∨
    (0 < i ∧ 0 < j ∧ dpWA [] orig trans i j = dpWA [] orig trans (i - 1) (j - 1) + 1) ∨
    (0 < i ∧ dpWA [] orig trans i j = dpWA [] orig trans (i - 1) j + 1) ∨
    (0 < j ∧ dpWA [] orig trans i j = dpWA [] orig trans i (j - 1) + 1) := by
  match i, j with
  | 0, 0 => omega
  | 0, j + 1 =>
    refine Or.inr (Or.inr (Or.inr ⟨by omega, ?_⟩))
    simp only [dpWA_zero_left, Nat.add_sub_cancel]
  | i + 1, 0 =>
    refine Or.inr (Or.inr (Or.inl ⟨by omega, ?_⟩))
    simp only [dpWA_zero_right, Nat.add_sub_cancel]
  | i + 1, j + 1 =>
    simp only [Nat.add_sub_cancel]
    by_cases heq : orig.getD i [] = trans.getD j []
    · exact Or.inl ⟨by omega, by omega, heq⟩
    · have hdp := dpWA_succ_succ ([] : Str) orig trans i j
      rw [if_neg heq] at hdp
      refine Or.inr ?_
      omega

theorem backtrackF_eq (orig trans : List Str) :
    ∀ fuel i j : Nat, i + j ≤ fuel →
      backtrackF orig trans fuel i j = some (backtrack orig trans i j) := by
  intro fuel
  induction fuel with
  | zero =>
    intro i j h
    have hi : i = 0 := by omega
    have hj : j = 0 := by omega
    subst hi; subst hj
    rw [backtrackF, backtrack]
    norm_num
  | succ fuel ih =>
    intro i j h
    by_cases hg : 0 < i ∨ 0 < j
    · rw [backtrackF, backtrack, if_pos hg, if_pos hg]
      by_cases hc1 : 0 < i ∧ 0 < j ∧ orig.getD (i - 1) [] = trans.getD (j - 1) []
      · rw [if_pos hc1, if_pos hc1, ih (i - 1) (j - 1) (by omega)]
        rfl
      · rw [if_neg hc1, if_neg hc1]
        by_cases hc2 : 0 < i ∧ 0 < j ∧
            dpWA [] orig trans i j = dpWA [] orig trans (i - 1) (j - 1) + 1
        · rw [if_pos hc2, if_pos hc2, ih (i - 1) (j - 1) (by omega)]
          rfl
        · rw [if_neg hc2, if_neg hc2]
          by_cases hc3 : 0 < i ∧ dpWA [] orig trans i j = dpWA [] orig trans (i - 1) j + 1
          · rw [if_pos hc3, if_pos hc3, ih (i - 1) j (by omega)]
            rfl
          · rw [if_neg hc3, if_neg hc3]
            by_cases hc4 : 0 < j ∧ dpWA [] orig trans i j = dpWA [] orig trans i (j - 1) + 1
            · rw [if_pos hc4, if_pos hc4, ih i (j - 1) (by omega)]
              rfl
            · exact absurd (backtrack_branch_total orig trans i j hg) (by
                rintro (hx | hx | hx | hx)
                exacts [hc1 hx, hc2 hx, hc3 hx, hc4 hx])
    · rw [backtrackF, backtrack, if_neg hg, if_neg hg]

theorem alignLoopF_eq (gt trans : Str) (pats : List Str) :
    ∀ fuel gtIdx transIdx : Nat, gt.length - gtIdx < fuel →
      alignLoopF gt trans pats fuel gtIdx transIdx =
        some (alignLoop gt trans pats gtIdx transIdx) := by
  intro fuel
  induction fuel with
  | zero => intro gtIdx transIdx h; omega
  | succ fuel ih =>
    intro gtIdx transIdx h
    rw [alignLoopF]
    by_cases hlt : gtIdx < gt.length
    · rw [if_pos hlt]
      dsimp only
      by_cases hm : firstMatch gt pats gtIdx ≠ []
      · rw [if_pos hm]
        have hpos : 0 < (firstMatch gt pats gtIdx).length := List.length_pos.mpr hm
        by_cases hsa : standaloneAt gt gtIdx (firstMatch gt pats gtIdx).length = true
        · rw [if_pos hsa]
          rw [skipWhileF_eq (fun c => isSpace c) trans (trans.length + 1) transIdx (by omega)]
          dsimp only
          rw [skipWhileF_eq (fun c => !(isSpace c)) trans (trans.length + 1) _ (by omega)]
          dsimp only
          rw [ih (gtIdx + (firstMatch gt pats gtIdx).length) _ (by omega)]
          rw [alignLoop_standalone gt trans pats gtIdx transIdx hlt hm hsa]
        · rw [if_neg hsa, ih (gtIdx + (firstMatch gt pats gtIdx).length) _ (by omega)]
          rw [alignLoop_embedded gt trans pats gtIdx transIdx hlt hm hsa]
      · rw [if_neg hm]
        rw [get?_of_lt gt gtIdx hlt ' ']
        dsimp only
        rw [ih (gtIdx + 1) _ (by omega)]
        dsimp only
        rw [alignLoop_normal gt trans pats gtIdx transIdx hlt hm]
        by_cases ht : transIdx < trans.length
        · rw [if_pos ht, if_pos ht, get?_of_lt trans transIdx ht ' ']
          dsimp only
          rw [if_pos ht]
        · rw [if_neg ht, if_neg ht]
          rw [if_neg ht]
    · rw [if_neg hlt, alignLoop_stop gt trans pats gtIdx transIdx hlt]

theorem ignoredCountF_eq (gt : Str) : ∀ pats : List Str,
    ignoredCountF gt pats =
      some ((pats.map (fun p => strCount gt p * (utf8Bytes p).length)).sum) := by
  intro pats
  induction pats with
  | nil => rfl
  | cons p ps ih =>
    rw [ignoredCountF, strCountF_eq p (gt.length + 1) gt (by omega), ih]
    rfl

theorem applyIgnorePatternsChecked_eq (gt trans : Str) (pats : List Str) :
    applyIgnorePatternsChecked gt trans pats = some (applyIgnorePatterns gt trans pats) := by
  unfold applyIgnorePatternsChecked applyIgnorePatterns
  by_cases hp : pats = []
  · rw [if_pos hp, if_pos hp]
  · rw [if_neg hp, if_neg hp, ignoredCountF_eq gt pats,
      alignLoopF_eq gt trans pats (gt.length + 1) 0 0 (by omega)]
    dsimp only
    rw [foldl_add_map (fun p => strCount gt p * (utf8Bytes p).length) pats 0]
    rw [Nat.zero_add]

theorem calculateWordLevelMetricsChecked_eq (orig trans : List Str) :
    calculateWordLevelMetricsChecked orig trans = some (calculateWordLevelMetrics orig trans) := by
  unfold calculateWordLevelMetricsChecked calculateWordLevelMetrics
  rw [backtrackF_eq orig trans (orig.length + trans.length) orig.length trans.length le_rfl]

theorem preprocessChecked_eq (s : Str) (sl : Bool) :
    preprocessChecked s sl = some (preprocess s sl) := by
  unfold preprocessChecked preprocess
  match sl with
  | false => rfl
  | true =>
    simp only [if_pos]
    exact normalizeSpacesF_eq _ _ (by omega)

/-- The fuel-instrumented engine computes `some` of the reference engine's
record on every input: every loop terminates within the stated fuel, no
branch gets stuck, and every index access is in bounds. -/
theorem CalculateAccuracyMetricsChecked_eq (original transcribed : Str)
    (ignorePatterns : List Str) (singleLine : Bool) :
    CalculateAccuracyMetricsChecked original transcribed ignorePatterns singleLine =
      some (CalculateAccuracyMetrics original transcribed ignorePatterns singleLine) := by
  unfold CalculateAccuracyMetricsChecked CalculateAccuracyMetrics
  rw [preprocessChecked_eq original singleLine, preprocessChecked_eq transcribed singleLine]
  dsimp only
  rw [applyIgnorePatternsChecked_eq]
  dsimp only
  rw [calculateWordLevelMetricsChecked_eq]

theorem applyIgnorePatterns_of_checked (gt trans : Str) (pats : List Str) (r : Str × Str × Nat)
    (h : applyIgnorePatternsChecked gt trans pats = some r) :
    applyIgnorePatterns gt trans pats = r := by
  have h2 := applyIgnorePatternsChecked_eq gt trans pats
  rw [h] at h2
  exact (Option.some.inj h2).symm

theorem backtrack_of_checked (orig trans : List Str) (i j : Nat) (r : OpCounts)
    (h : backtrackF orig trans (i + j) i j = some r) :
    backtrack orig trans i j = r := by
  have h2 := backtrackF_eq orig trans (i + j) i j le_rfl
  rw [h] at h2
  exact (Option.some.inj h2).symm

/-- Record produced by `CalculateAccuracyMetrics` once the aligner's output
and the backtrace's counts are known: every field written out in terms of
them, for computing the engine's answer on concrete inputs. -/
theorem CalculateAccuracyMetrics_eq_of (o t : Str) (pats : List Str) (sl : Bool)
    (PG PT : Str) (N : Nat)
    (hproc : applyIgnorePatterns (preprocess o sl) (preprocess t sl) pats = (PG, PT, N))
    (r : OpCounts)
    (hbt : backtrack (fields PG) (fields PT) (fields PG).length (fields PT).length = r) :
    CalculateAccuracyMetrics o t pats sl =
      { characterSimilarity := calculateSimilarity PG PT
        characterAccuracy := if 0 < (utf8Bytes PG).length then
            1 - (levenshteinDistance PG PT : ℚ) / ((utf8Bytes PG).length : ℚ) else 1
        wordSimilarity := calculateWordSimilarity (fields PG) (fields PT)
        wordAccuracy := 1 - (if 0 < (fields PG).length then
            ((r.substitutions + r.deletions + r.insertions : Nat) : ℚ) /
              ((fields PG).length : ℚ) else 0)
        wordErrorRate := 1 - (1 - (if 0 < (fields PG).length then
            ((r.substitutions + r.deletions + r.insertions : Nat) : ℚ) /
              ((fields PG).length : ℚ) else 0))
        totalWordsOriginal := (fields PG).length
        totalWordsTranscribed := (fields PT).length
        correctWords := r.correct
        substitutions := r.substitutions
        deletions := r.deletions
        insertions := r.insertions
        ignoredCharsCount := N } := by
  simp only [CalculateAccuracyMetrics, calculateWordLevelMetrics]
  rw [hproc]
  dsimp only
  rw [hbt]

theorem strCount_of_checked (s pat : Str) (n : Nat)
    (h : strCountF pat (s.length + 1) s = some n) : strCount s pat = n := by
  have h2 := strCountF_eq pat (s.length + 1) s (by omega)
  rw [h] at h2
  exact (Option.some.inj h2).symm

theorem levenshteinDistance_le (s1 s2 : Str) :
    levenshteinDistance s1 s2 ≤ max (utf8Bytes s1).length (utf8Bytes s2).length := by
  simp only [levenshteinDistance]
  split_ifs with h1 h2
  · rw [h1]
    simp
  · rw [h2]
    simp
  · exact levMat_le_max 0 _ _ _ _

theorem calculateSimilarity_mem (s1 s2 : Str) :
    0 ≤ calculateSimilarity s1 s2 ∧ calculateSimilarity s1 s2 ≤ 1 := by
  simp only [calculateSimilarity]
  by_cases h : max (utf8Bytes s1).length (utf8Bytes s2).length = 0
  · rw [if_pos h]
    norm_num
  · rw [if_neg h]
    have hd := levenshteinDistance_le s1 s2
    have hm0 : 0 < max (utf8Bytes s1).length (utf8Bytes s2).length := Nat.pos_of_ne_zero h
    have hmq : (0 : ℚ) < ((max (utf8Bytes s1).length (utf8Bytes s2).length : Nat) : ℚ) := by
      exact_mod_cast hm0
    have hdiv1 : (levenshteinDistance s1 s2 : ℚ) /
        ((max (utf8Bytes s1).length (utf8Bytes s2).length : Nat) : ℚ) ≤ 1 := by
      rw [div_le_one hmq]
      exact_mod_cast hd
    have hdiv0 : 0 ≤ (levenshteinDistance s1 s2 : ℚ) /
        ((max (utf8Bytes s1).length (utf8Bytes s2).length : Nat) : ℚ) := by positivity
    constructor <;> linarith

/-- Claim C2: for every pair of input strings, whenever the tokenized
original word sequence is non-empty, the record returned by the word
alignment backtrace satisfies
`correctWords + substitutions + deletions = totalWordsOriginal`. -/
theorem C2_word_alignment_invariant (original transcribed : Str) (ignorePatterns : List Str)
    (singleLine : Bool)
    (htot : 0 < (CalculateAccuracyMetrics original transcribed ignorePatterns
      singleLine).totalWordsOriginal) :
    (CalculateAccuracyMetrics original transcribed ignorePatterns singleLine).correctWords +
        (CalculateAccuracyMetrics original transcribed ignorePatterns singleLine).substitutions +
        (CalculateAccuracyMetrics original transcribed ignorePatterns singleLine).deletions =
      (CalculateAccuracyMetrics original transcribed ignorePatterns
        singleLine).totalWordsOriginal := by
  simp only [CalculateAccuracyMetrics, calculateWordLevelMetrics]
  exact (backtrack_sums _ _ _ _).1

theorem C2_witness :
    0 < (CalculateAccuracyMetrics "a b".data "a c".data [] false).totalWordsOriginal ∧
    (CalculateAccuracyMetrics "a b".data "a c".data [] false).correctWords +
        (CalculateAccuracyMetrics "a b".data "a c".data [] false).substitutions +
        (CalculateAccuracyMetrics "a b".data "a c".data [] false).deletions =
      (CalculateAccuracyMetrics "a b".data "a c".data [] false).totalWordsOriginal := by
  have hpos : 0 < (CalculateAccuracyMetrics "a b".data "a c".data [] false).totalWordsOriginal :=
    by decide
  exact ⟨hpos, C2_word_alignment_invariant "a b".data "a c".data [] false hpos⟩

/-- Claim C9: the total error count produced by the backtrace in
`calculateWordLevelMetrics` (substitutions + deletions + insertions) equals
the word-level edit distance computed independently by
`wordLevelLevenshteinDistance` on the same two sequences. -/
theorem C9_backtrace_distance_agree (orig trans : List Str) :
    (calculateWordLevelMetrics orig trans).substitutions +
        (calculateWordLevelMetrics orig trans).deletions +
        (calculateWordLevelMetrics orig trans).insertions =
      wordLevelLevenshteinDistance orig trans := by
  simp only [calculateWordLevelMetrics]
  rw [(backtrack_sums orig trans orig.length trans.length).2]
  rw [dpWA_eq_levMat, wordLevelLevenshteinDistance_eq_levMat]

/-- Claim C7: the evaluation engine is total.  The fuel-instrumented engine
`CalculateAccuracyMetricsChecked`, in which every loop of the Go source
consumes explicit fuel, every array access is checked, and a backtrace step
on which no branch fires yields `none`, returns `some` of the reference
engine's record for every ground truth, transcription, pattern list and
`singleLine` flag: no loop exceeds its input-size fuel bound, no access is
out of bounds, and the backtrace never gets stuck. -/
theorem C7_engine_total (original transcribed : Str) (ignorePatterns : List Str)
    (singleLine : Bool) :
    CalculateAccuracyMetricsChecked original transcribed ignorePatterns singleLine =
      some (CalculateAccuracyMetrics original transcribed ignorePatterns singleLine) :=
  CalculateAccuracyMetricsChecked_eq original transcribed ignorePatterns singleLine

/-- Claim C8: with `singleLine` set, the transformation stage replaces every
newline, carriage return and tab with a single space and then collapses
every run of two or more spaces into one space, preserving (not trimming)
leading and trailing spaces - that is, it computes exactly the run-collapse
`collapseRuns` of the character-replaced string; with `singleLine` unset the
text reaches the ignore-pattern aligner unchanged. -/
theorem C8_single_line_normalization (s : Str) :
    preprocess s true =
        collapseRuns (replaceChar '\t' (replaceChar '\r' (replaceChar '\n' s))) ∧
      preprocess s false = s := by
  constructor
  · show singleLineTransform s = _
    unfold singleLineTransform
    exact normalizeSpaces_eq_collapseRuns _
  · rfl

/-- Claim C5 (amended): `ignoredCount` is the sum over all patterns of the
pattern's non-overlapping occurrence count in the ground truth times the
pattern's UTF-8 byte length (Go `len(pattern)` counts bytes, not
characters); it is independent of the transcription and of the
standalone/embedded classification. -/
theorem C5_ignored_bytes (gt trans : Str) (pats : List Str)
    (hne : pats ≠ []) (hp : ∀ p ∈ pats, p ≠ []) :
    (applyIgnorePatterns gt trans pats).2.2 =
      (pats.map (fun p => strCount gt p * (utf8Bytes p).length)).sum := by
  unfold applyIgnorePatterns
  rw [if_neg hne]
  dsimp only
  rw [foldl_add_map (fun p => strCount gt p * (utf8Bytes p).length) pats 0, Nat.zero_add]

theorem C5_witness :
    (["，".data] : List Str) ≠ [] ∧ (∀ p ∈ (["，".data] : List Str), p ≠ []) ∧
    (applyIgnorePatterns "a，b".data "acb".data ["，".data]).2.2 =
      ((["，".data] : List Str).map
        (fun p => strCount "a，b".data p * (utf8Bytes p).length)).sum := by
  refine ⟨by decide, by decide, ?_⟩
  exact C5_ignored_bytes "a，b".data "acb".data ["，".data] (by decide) (by decide)

/-- Claim C5 is refuted as stated: the counted unit is the UTF-8 byte, not
the character.  For ground truth `"é"` and the single pattern `"é"` (one
character, two bytes), the returned `ignoredCount` is 2, while the claimed
formula - occurrences times the pattern's length in characters - gives 1. -/
theorem C5_counterexample :
    (applyIgnorePatterns "é".data "x".data ["é".data]).2.2 = 2 ∧
    (["é".data] : List Str).map (fun p => strCount "é".data p * p.length) = [1] := by
  constructor
  · have hproc := applyIgnorePatterns_of_checked "é".data "x".data ["é".data]
      ([], [], 2) (by decide)
    rw [hproc]
  · have hsc : strCount "é".data "é".data = 1 :=
      strCount_of_checked "é".data "é".data 1 (by decide)
    simp [hsc]

/-- Claim C6: on ground truth `"hello | world"`, transcription
`"hello foo world"`, patterns `["|"]` and `singleLine = false`, the engine
returns `ignoredCharsCount = 1`, the processed ground truth is
`"hello  world"` (two spaces), and `wordAccuracy = 1`: a standalone pattern
occurrence skips one whole whitespace-delimited word of the transcription
without copying it. -/
theorem C6_standalone_scenario :
    (CalculateAccuracyMetrics "hello | world".data "hello foo world".data
        ["|".data] false).ignoredCharsCount = 1 ∧
    (applyIgnorePatterns "hello | world".data "hello foo world".data ["|".data]).1 =
      "hello  world".data ∧
    (CalculateAccuracyMetrics "hello | world".data "hello foo world".data
        ["|".data] false).wordAccuracy = 1 := by
  have hproc : applyIgnorePatterns "hello | world".data "hello foo world".data ["|".data] =
      ("hello  world".data, "hello  world".data, 1) :=
    applyIgnorePatterns_of_checked _ _ _ _ (by decide)
  have hbt : backtrack (fields "hello  world".data) (fields "hello  world".data)
      (fields "hello  world".data).length (fields "hello  world".data).length = ⟨2, 0, 0, 0⟩ :=
    backtrack_of_checked _ _ _ _ _ (by decide)
  have hr := CalculateAccuracyMetrics_eq_of "hello | world".data "hello foo world".data
    ["|".data] false "hello  world".data "hello  world".data 1 hproc ⟨2, 0, 0, 0⟩ hbt
  refine ⟨by rw [hr], by rw [hproc], ?_⟩
  rw [hr]
  show 1 - (if 0 < (fields "hello  world".data).length then
      (((0 : Nat) + 0 + 0 : Nat) : ℚ) / (((fields "hello  world".data).length : Nat) : ℚ)
    else 0) = 1
  have hlen : (fields "hello  world".data).length = 2 := rfl
  rw [hlen]
  norm_num

/-- Claim C1 is refuted as stated: `CalculateAccuracyMetrics` performs no
case folding, so ground truth `"A"` versus transcription `"a"` (no ignore
patterns, `singleLine = false`) does not yield the metrics of identical
inputs: `characterSimilarity` is not 1 and `correctWords` is not 1. -/
theorem C1_counterexample :
    (CalculateAccuracyMetrics "A".data "a".data [] false).characterSimilarity ≠ 1 ∧
    (CalculateAccuracyMetrics "A".data "a".data [] false).correctWords ≠ 1 := by
  have hproc : applyIgnorePatterns "A".data "a".data [] = ("A".data, "a".data, 0) := rfl
  have hbt : backtrack (fields "A".data) (fields "a".data)
      (fields "A".data).length (fields "a".data).length = ⟨0, 1, 0, 0⟩ :=
    backtrack_of_checked _ _ _ _ _ (by decide)
  have hr := CalculateAccuracyMetrics_eq_of "A".data "a".data [] false "A".data "a".data 0
    hproc ⟨0, 1, 0, 0⟩ hbt
  constructor
  · rw [hr]
    show calculateSimilarity "A".data "a".data ≠ 1
    simp only [calculateSimilarity]
    rw [show levenshteinDistance "A".data "a".data = 1 from rfl,
      show (utf8Bytes "A".data).length = 1 from rfl,
      show (utf8Bytes "a".data).length = 1 from rfl]
    norm_num
  · rw [hr]
    decide

/-- Claim C1 (amended): after ignore-pattern processing no case folding is
applied; the character- and word-level comparisons are case-sensitive, so
ground truth `"A"` versus transcription `"a"` yields `characterSimilarity = 0`
and `correctWords = 0`, while the identical pair `"a"` versus `"a"` yields
`characterSimilarity = 1` and `correctWords = 1`. -/
theorem C1_case_sensitive :
    (CalculateAccuracyMetrics "A".data "a".data [] false).characterSimilarity = 0 ∧
    (CalculateAccuracyMetrics "A".data "a".data [] false).correctWords = 0 ∧
    (CalculateAccuracyMetrics "a".data "a".data [] false).characterSimilarity = 1 ∧
    (CalculateAccuracyMetrics "a".data "a".data [] false).correctWords = 1 := by
  have hr1 := CalculateAccuracyMetrics_eq_of "A".data "a".data [] false "A".data "a".data 0
    rfl ⟨0, 1, 0, 0⟩ (backtrack_of_checked _ _ _ _ _ (by decide))
  have hr2 := CalculateAccuracyMetrics_eq_of "a".data "a".data [] false "a".data "a".data 0
    rfl ⟨1, 0, 0, 0⟩ (backtrack_of_checked _ _ _ _ _ (by decide))
  refine ⟨?_, by rw [hr1], ?_, by rw [hr2]⟩
  · rw [hr1]
    show calculateSimilarity "A".data "a".data = 0
    simp only [calculateSimilarity]
    rw [show levenshteinDistance "A".data "a".data = 1 from rfl,
      show (utf8Bytes "A".data).length = 1 from rfl,
      show (utf8Bytes "a".data).length = 1 from rfl]
    norm_num
  · rw [hr2]
    show calculateSimilarity "a".data "a".data = 1
    simp only [calculateSimilarity]
    rw [show levenshteinDistance "a".data "a".data = 0 from rfl,
      show (utf8Bytes "a".data).length = 1 from rfl]
    norm_num

/-- Claim C3 is refuted as stated: `characterAccuracy` can leave `[0, 1]`
even when the processed original is non-empty.  With original `"a"` and
transcription `"abc"` the edit distance is 2 while the original has one
byte, so the engine returns `characterAccuracy = -1`. -/
theorem C3_counterexample :
    (applyIgnorePatterns "a".data "abc".data []).1 ≠ [] ∧
    (CalculateAccuracyMetrics "a".data "abc".data [] false).characterAccuracy = -1 := by
  constructor
  · decide
  · have hr := CalculateAccuracyMetrics_eq_of "a".data "abc".data [] false "a".data "abc".data 0
      rfl ⟨0, 1, 0, 0⟩ (backtrack_of_checked _ _ _ _ _ (by decide))
    rw [hr]
    show (if 0 < (utf8Bytes "a".data).length then
        1 - (levenshteinDistance "a".data "abc".data : ℚ) / ((utf8Bytes "a".data).length : ℚ)
      else 1) = -1
    rw [show levenshteinDistance "a".data "abc".data = 2 from rfl,
      show (utf8Bytes "a".data).length = 1 from rfl]
    norm_num

theorem charAcc_bounds (PG PT : Str) :
    (if 0 < (utf8Bytes PG).length then
        1 - (levenshteinDistance PG PT : ℚ) / ((utf8Bytes PG).length : ℚ) else 1) ≤ 1 ∧
    ((utf8Bytes PT).length ≤ (utf8Bytes PG).length →
      0 ≤ (if 0 < (utf8Bytes PG).length then
        1 - (levenshteinDistance PG PT : ℚ) / ((utf8Bytes PG).length : ℚ) else 1)) := by
  constructor
  · by_cases hL : 0 < (utf8Bytes PG).length
    · rw [if_pos hL]
      have h0 : 0 ≤ (levenshteinDistance PG PT : ℚ) / ((utf8Bytes PG).length : ℚ) := by
        positivity
      linarith
    · rw [if_neg hL]
  · intro hb
    by_cases hL : 0 < (utf8Bytes PG).length
    · rw [if_pos hL]
      have hd := levenshteinDistance_le PG PT
      rw [Nat.max_eq_left hb] at hd
      have hLq : (0 : ℚ) < ((utf8Bytes PG).length : ℚ) := by exact_mod_cast hL
      have hdiv : (levenshteinDistance PG PT : ℚ) / ((utf8Bytes PG).length : ℚ) ≤ 1 := by
        rw [div_le_one hLq]
        exact_mod_cast hd
      linarith
    · rw [if_neg hL]
      norm_num

/-- Claim C3 (amended): for every input, `characterSimilarity` lies in
`[0, 1]`; `characterAccuracy` is at most 1 but can be negative when the
processed transcription is longer than the processed original - it is
non-negative whenever the processed transcription's byte length does not
exceed the processed original's. -/
theorem C3_similarity_accuracy_bounds (original transcribed : Str) (pats : List Str)
    (sl : Bool) :
    0 ≤ (CalculateAccuracyMetrics original transcribed pats sl).characterSimilarity ∧
    (CalculateAccuracyMetrics original transcribed pats sl).characterSimilarity ≤ 1 ∧
    (CalculateAccuracyMetrics original transcribed pats sl).characterAccuracy ≤ 1 ∧
    ((utf8Bytes (applyIgnorePatterns (preprocess original sl) (preprocess transcribed sl)
          pats).2.1).length ≤
        (utf8Bytes (applyIgnorePatterns (preprocess original sl) (preprocess transcribed sl)
          pats).1).length →
      0 ≤ (CalculateAccuracyMetrics original transcribed pats sl).characterAccuracy) := by
  have hsim := calculateSimilarity_mem
    ((applyIgnorePatterns (preprocess original sl) (preprocess transcribed sl) pats).1)
    ((applyIgnorePatterns (preprocess original sl) (preprocess transcribed sl) pats).2.1)
  have hacc := charAcc_bounds
    ((applyIgnorePatterns (preprocess original sl) (preprocess transcribed sl) pats).1)
    ((applyIgnorePatterns (preprocess original sl) (preprocess transcribed sl) pats).2.1)
  simp only [CalculateAccuracyMetrics]
  exact ⟨hsim.1, hsim.2, hacc.1, hacc.2⟩

theorem C3_witness :
    0 ≤ (CalculateAccuracyMetrics "ab".data "ab".data [] false).characterSimilarity ∧
    (CalculateAccuracyMetrics "ab".data "ab".data [] false).characterSimilarity ≤ 1 ∧
    (CalculateAccuracyMetrics "ab".data "ab".data [] false).characterAccuracy ≤ 1 ∧
    0 ≤ (CalculateAccuracyMetrics "ab".data "ab".data [] false).characterAccuracy := by
  have h := C3_similarity_accuracy_bounds "ab".data "ab".data [] false
  exact ⟨h.1, h.2.1, h.2.2.1, h.2.2.2 (by decide)⟩

theorem wordSim_vs_wordAcc (ow tw : List Str) :
    (ow.length < tw.length →
      calculateWordSimilarity ow tw ≠ (calculateWordLevelMetrics ow tw).wordAccuracy) ∧
    (tw.length ≤ ow.length →
      calculateWordSimilarity ow tw = (calculateWordLevelMetrics ow tw).wordAccuracy) := by
  have hE := (backtrack_sums ow tw ow.length tw.length).2
  rw [dpWA_eq_levMat] at hE
  have hW := wordLevelLevenshteinDistance_eq_levMat ow tw
  simp only [calculateWordLevelMetrics, calculateWordSimilarity]
  rw [hW]
  constructor
  · intro hmn
    have hmax : max ow.length tw.length = tw.length := Nat.max_eq_right (Nat.le_of_lt hmn)
    rw [hmax, if_neg (by omega : ¬ tw.length = 0)]
    by_cases hm : 0 < ow.length
    · rw [if_pos hm, hE]
      have hD : 0 < levMat ([] : Str) ow tw ow.length tw.length := by
        have := (levMat_lower ([] : Str) ow tw ow.length tw.length).2
        omega
      have hmq : (0 : ℚ) < (ow.length : ℚ) := by exact_mod_cast hm
      have hnq : (0 : ℚ) < (tw.length : ℚ) := by exact_mod_cast (by omega : 0 < tw.length)
      have hDq : (0 : ℚ) < (levMat ([] : Str) ow tw ow.length tw.length : ℚ) := by
        exact_mod_cast hD
      intro hcon
      have hdiv : (levMat ([] : Str) ow tw ow.length tw.length : ℚ) / (tw.length : ℚ) =
          (levMat ([] : Str) ow tw ow.length tw.length : ℚ) / (ow.length : ℚ) := by
        linarith
      rw [div_eq_div_iff (ne_of_gt hnq) (ne_of_gt hmq)] at hdiv
      have hlen : (ow.length : ℚ) = (tw.length : ℚ) :=
        mul_left_cancel₀ (ne_of_gt hDq) hdiv
      have : ow.length = tw.length := by exact_mod_cast hlen
      omega
    · rw [if_neg hm]
      have hm0 : ow.length = 0 := by omega
      have hDn : levMat ([] : Str) ow tw ow.length tw.length = tw.length := by
        rw [hm0, levMat_zero_left]
      rw [hDn]
      have hnq : (tw.length : ℚ) ≠ 0 := by
        exact_mod_cast (by omega : tw.length ≠ 0)
      rw [div_self hnq]
      norm_num
  · intro hnm
    by_cases hm : 0 < ow.length
    · have hmax : max ow.length tw.length = ow.length := Nat.max_eq_left hnm
      rw [hmax, if_neg (by omega : ¬ ow.length = 0), if_pos hm, hE]
    · have hm0 : ow.length = 0 := by omega
      have hn0 : tw.length = 0 := by omega
      rw [hm0, hn0]
      norm_num

/-- Claim C4 is refuted as stated: with original words `["a", "b"]` and
transcribed words `["a"]` the word counts differ (2 versus 1) yet
`wordSimilarity` and `wordAccuracy` agree (both 1/2): normalizing by
`max(m, n)` and by `m` coincides whenever `m ≥ n`. -/
theorem C4_counterexample :
    (CalculateAccuracyMetrics "a b".data "a".data [] false).totalWordsOriginal ≠
      (CalculateAccuracyMetrics "a b".data "a".data [] false).totalWordsTranscribed ∧
    (CalculateAccuracyMetrics "a b".data "a".data [] false).wordSimilarity =
      (CalculateAccuracyMetrics "a b".data "a".data [] false).wordAccuracy := by
  constructor
  · decide
  · simp only [CalculateAccuracyMetrics]
    exact (wordSim_vs_wordAcc _ _).2 (by decide)

/-- Claim C4 (amended): `wordSimilarity` (normalized by `max(m, n)`) and
`wordAccuracy` (normalized by `m`) diverge exactly when the transcription
has strictly more words than the original: if `m < n` they differ, and if
`n ≤ m` they coincide. -/
theorem C4_divergence_iff (original transcribed : Str) (pats : List Str) (sl : Bool) :
    ((CalculateAccuracyMetrics original transcribed pats sl).totalWordsOriginal <
        (CalculateAccuracyMetrics original transcribed pats sl).totalWordsTranscribed →
      (CalculateAccuracyMetrics original transcribed pats sl).wordSimilarity ≠
        (CalculateAccuracyMetrics original transcribed pats sl).wordAccuracy) ∧
    ((CalculateAccuracyMetrics original transcribed pats sl).totalWordsTranscribed ≤
        (CalculateAccuracyMetrics original transcribed pats sl).totalWordsOriginal →
      (CalculateAccuracyMetrics original transcribed pats sl).wordSimilarity =
        (CalculateAccuracyMetrics original transcribed pats sl).wordAccuracy) := by
  simp only [CalculateAccuracyMetrics]
  exact wordSim_vs_wordAcc _ _

theorem C4_witness :
    ((CalculateAccuracyMetrics "a".data "b c".data [] false).totalWordsOriginal <
        (CalculateAccuracyMetrics "a".data "b c".data [] false).totalWordsTranscribed ∧
      (CalculateAccuracyMetrics "a".data "b c".data [] false).wordSimilarity ≠
        (CalculateAccuracyMetrics "a".data "b c".data [] false).wordAccuracy) ∧
    ((CalculateAccuracyMetrics "a b".data "a".data [] false).totalWordsTranscribed ≤
        (CalculateAccuracyMetrics "a b".data "a".data [] false).totalWordsOriginal ∧
      (CalculateAccuracyMetrics "a b".data "a".data [] false).wordSimilarity =
        (CalculateAccuracyMetrics "a b".data "a".data [] false).wordAccuracy) :=
  ⟨⟨by decide, (C4_divergence_iff "a".data "b c".data [] false).1 (by decide)⟩,
   ⟨by decide, (C4_divergence_iff "a b".data "a".data [] false).2 (by decide)⟩⟩

/-- Claim C10: with a non-empty list of non-empty patterns, the processed
transcription never has more code points than the processed ground truth;
and when no pattern occurs in the ground truth, the aligner returns the
ground truth verbatim and the transcription truncated to the ground truth's
code-point length, silently dropping any excess tail. -/
theorem C10_transcription_truncation (gt trans : Str) (pats : List Str)
    (hne : pats ≠ []) (hp : ∀ p ∈ pats, p ≠ []) :
    (applyIgnorePatterns gt trans pats).2.1.length ≤
        (applyIgnorePatterns gt trans pats).1.length ∧
    ((∀ p ∈ pats, ∀ i : Nat, i < gt.length → ¬ p.isPrefixOf (gt.drop i) = true) →
      (applyIgnorePatterns gt trans pats).1 = gt ∧
      (applyIgnorePatterns gt trans pats).2.1 = trans.take gt.length) := by
  unfold applyIgnorePatterns
  rw [if_neg hne]
  dsimp only
  constructor
  · exact alignLoop_trans_len_le gt trans pats 0 0
  · intro hocc
    have hfm : ∀ k : Nat, k < gt.length → firstMatch gt pats k = [] := by
      intro k hk
      unfold firstMatch
      rw [List.find?_eq_none.mpr (fun p hpmem => hocc p hpmem k hk)]
      rfl
    have halign := alignLoop_no_match gt trans pats hfm 0 0
    rw [halign]
    constructor
    · simp
    · simp

theorem C10_witness :
    (applyIgnorePatterns "ab".data "abcd".data [['x']]).2.1.length ≤
        (applyIgnorePatterns "ab".data "abcd".data [['x']]).1.length ∧
    ((applyIgnorePatterns "ab".data "abcd".data [['x']]).1 = "ab".data ∧
      (applyIgnorePatterns "ab".data "abcd".data [['x']]).2.1 =
        "abcd".data.take "ab".data.length) := by
  have h := C10_transcription_truncation "ab".data "abcd".data [['x']]
    (by decide) (by decide)
  exact ⟨h.1, h.2 (by decide)⟩

end HTR
